import Mathlib

/-!
Verification development for the chunk_learner repository.

The repository stores learning "chunks" and directed prerequisite edges in
an SQLite database (src/chunk_learner/database.py) and exposes operations in
src/chunk_learner/operations.py; the completion gate lives in the `complete`
command of src/chunk_learner/cli.py.  This file is a shallow embedding of the
persisted state and those operations:

* the `chunks` table becomes a list of `Chunk` records (insertion order);
  `id INTEGER PRIMARY KEY AUTOINCREMENT` becomes the `nextId` counter
  starting at 1;
* the `dependencies` table becomes a list of `Dependency` pairs; its
  surrogate `id` column plays no role and is omitted; the
  `UNIQUE(chunk_id, depends_on_chunk_id)` constraint is reflected in
  `add_dependency`, which catches the resulting IntegrityError and returns
  false (operations.py lines 132-142);
* `sqlite3.connect` never issues `PRAGMA foreign_keys = ON`, so the FOREIGN
  KEY clauses of the dependencies table are NOT enforced at run time, and
  `add_dependency` is embedded without any existence check on either id;
* timestamps (`datetime.now()`, `CURRENT_TIMESTAMP`) are modelled as a `Nat`
  parameter supplied by the caller;
* the `CHECK(difficulty BETWEEN 1 AND 5)` column constraint makes the INSERT
  of `create_chunk` fail for an out-of-range difficulty; the raised error
  (the spec calls this kind of boundary failure `ValidationError`) is
  modelled as `Except.error OpError.validationError` and leaves the store
  unchanged.
-/

/-- Row of the `chunks` table (database.py lines 32-42), also the `Chunk`
dataclass of models.py. -/
structure Chunk where
  id : Nat
  name : String
  description : String
  difficulty : Int
  completed : Bool
  created_at : Nat
  completed_at : Option Nat
  deriving Repr, DecidableEq

/-- Row of the `dependencies` table (database.py lines 45-54), without the
surrogate autoincrement id, which nothing reads. -/
structure Dependency where
  chunk_id : Nat
  depends_on_chunk_id : Nat
  deriving Repr, DecidableEq

/-- The persisted state: both tables plus the autoincrement counter. -/
structure Store where
  chunks : List Chunk
  dependencies : List Dependency
  nextId : Nat
  deriving Repr, DecidableEq

/-- A freshly initialised database (init_database creates empty tables;
SQLite AUTOINCREMENT ids start at 1). -/
def emptyStore : Store := { chunks := [], dependencies := [], nextId := 1 }

/-- Error raised when the `CHECK(difficulty BETWEEN 1 AND 5)` column
constraint rejects an INSERT; the spec's name for this boundary failure is
`ValidationError`. -/
inductive OpError where
  | validationError
  deriving Repr, DecidableEq

/-- The `CHECK(difficulty BETWEEN 1 AND 5)` constraint of the chunks table. -/
def validDifficulty (d : Int) : Bool := decide (1 ≤ d ∧ d ≤ 5)

/-- operations.create_chunk (operations.py lines 10-33): INSERTs a row with
`completed` defaulting to 0 and `completed_at` to NULL and returns the new
id.  The Python body performs no validation of its own; the database CHECK
constraint rejects a difficulty outside [1,5] and the resulting error
propagates, leaving no row behind. -/
def create_chunk (s : Store) (name description : String) (difficulty : Int)
    (now : Nat) : Except OpError (Store × Nat) :=
  if validDifficulty difficulty then
    Except.ok
      ({ s with
          chunks := s.chunks ++
            [{ id := s.nextId, name := name, description := description,
               difficulty := difficulty, completed := false,
               created_at := now, completed_at := none }],
          nextId := s.nextId + 1 }, s.nextId)
  else
    Except.error OpError.validationError

/-- operations.get_chunk_by_id (operations.py lines 65-92):
`SELECT * FROM chunks WHERE id = ?` and fetchone. -/
def get_chunk_by_id (s : Store) (chunk_id : Nat) : Option Chunk :=
  s.chunks.find? (fun c => c.id == chunk_id)

/-- operations.complete_chunk (operations.py lines 95-116):
`UPDATE chunks SET completed = 1, completed_at = ? WHERE id = ?`; returns
whether any row was affected.  The UPDATE does not test the prior completed
state, so it also runs on an already-completed row, overwriting
completed_at. -/
def complete_chunk (s : Store) (chunk_id : Nat) (now : Nat) : Store × Bool :=
  ({ s with
      chunks := s.chunks.map (fun c =>
        if c.id == chunk_id then
          { c with completed := true, completed_at := some now }
        else c) },
   s.chunks.any (fun c => c.id == chunk_id))

/-- Whether the `(chunk_id, depends_on_chunk_id)` pair is already present:
the condition under which the UNIQUE constraint fires. -/
def hasEdge (s : Store) (chunk_id depends_on_chunk_id : Nat) : Bool :=
  s.dependencies.any (fun d =>
    d.chunk_id == chunk_id && d.depends_on_chunk_id == depends_on_chunk_id)

/-- operations.add_dependency (operations.py lines 119-142): INSERT the
pair; a duplicate pair trips the UNIQUE constraint, the IntegrityError is
caught and False is returned.  Foreign keys are not enforced (no PRAGMA),
so no existence check happens for either id. -/
def add_dependency (s : Store) (chunk_id depends_on_chunk_id : Nat) :
    Store × Bool :=
  if hasEdge s chunk_id depends_on_chunk_id then
    (s, false)
  else
    ({ s with
        dependencies := s.dependencies ++
          [{ chunk_id := chunk_id,
             depends_on_chunk_id := depends_on_chunk_id }] },
     true)

/-- operations.get_chunk_dependencies (operations.py lines 145-179):
`SELECT c.* FROM chunks c JOIN dependencies d ON c.id = d.depends_on_chunk_id
WHERE d.chunk_id = ?`.  The JOIN keeps only edges whose target id is an
existing chunk, so a dangling edge contributes nothing. -/
def get_chunk_dependencies (s : Store) (chunk_id : Nat) : List Chunk :=
  s.chunks.filter (fun c =>
    s.dependencies.any (fun d =>
      d.chunk_id == chunk_id && d.depends_on_chunk_id == c.id))

/-- The NOT EXISTS subquery of get_next_available_chunk (operations.py
lines 199-203): some dependency edge of `c` whose target is an existing
incomplete chunk.  As in the SQL, an edge whose target id matches no chunk
row is ignored by the JOIN. -/
def hasIncompleteDep (s : Store) (c : Chunk) : Bool :=
  s.dependencies.any (fun d =>
    d.chunk_id == c.id &&
      s.chunks.any (fun dep =>
        dep.id == d.depends_on_chunk_id && dep.completed == false))

/-- The WHERE clause of get_next_available_chunk: incomplete and no
incomplete (existing) dependency. -/
def isCandidate (s : Store) (c : Chunk) : Bool :=
  !c.completed && !hasIncompleteDep s c

/-- The `ORDER BY c.difficulty ASC, c.created_at ASC` key as a comparison:
`a` sorts no later than `b`. -/
def keyLE (a b : Chunk) : Bool :=
  decide (a.difficulty < b.difficulty ∨
    (a.difficulty = b.difficulty ∧ a.created_at ≤ b.created_at))

/-- `LIMIT 1` after the ORDER BY: an element of the list minimal for
`keyLE`, or none when the list is empty. -/
def minByKey : List Chunk → Option Chunk
  | [] => none
  | c :: rest =>
    match minByKey rest with
    | none => some c
    | some m => if keyLE c m then some c else some m

/-- operations.get_next_available_chunk (operations.py lines 182-222):
filter to candidates, order by (difficulty, created_at), take the first. -/
def get_next_available_chunk (s : Store) : Option Chunk :=
  minByKey (s.chunks.filter (fun c => isCandidate s c))

/-- Outcome of the completion gate run by the `complete` CLI command
(cli.py lines 123-143) before it calls complete_chunk; this is the
`can_complete` operation of the spec. -/
inductive GateResult where
  | notFound
  | alreadyCompleted
  | blocked (incomplete : List Chunk)
  | ok
  deriving Repr, DecidableEq

/-- The completion gate of cli.complete (cli.py lines 123-143): fetch the
chunk (not found aborts); an already-completed chunk is reported and
nothing further happens; otherwise the incomplete direct dependencies are
listed and block completion when non-empty; only on `ok` does the caller
invoke complete_chunk. -/
def can_complete (s : Store) (chunk_id : Nat) : GateResult :=
  match get_chunk_by_id s chunk_id with
  | none => GateResult.notFound
  | some c =>
    if c.completed then GateResult.alreadyCompleted
    else if ((get_chunk_dependencies s chunk_id).filter
        (fun d => !d.completed)).isEmpty then
      GateResult.ok
    else
      GateResult.blocked ((get_chunk_dependencies s chunk_id).filter
        (fun d => !d.completed))

/-- The state-mutating operations the program exposes (create_chunk,
complete_chunk, add_dependency); the queries (get_chunk_by_id,
get_all_chunks, get_chunk_dependencies, get_next_available_chunk,
can_complete) are pure functions of the store and never mutate it, which
the embedding shows by their types. -/
inductive Op where
  | create (name description : String) (difficulty : Int) (now : Nat)
  | complete (chunk_id : Nat) (now : Nat)
  | addDep (chunk_id depends_on_chunk_id : Nat)
  deriving Repr

/-- Effect of one operation on the store; a create_chunk rejected by the
CHECK constraint leaves the store unchanged. -/
def applyOp (s : Store) : Op → Store
  | Op.create n d diff now =>
    match create_chunk s n d diff now with
    | Except.ok p => p.1
    | Except.error _ => s
  | Op.complete i now => (complete_chunk s i now).1
  | Op.addDep a b => (add_dependency s a b).1

/-- The store reached by a sequence of operations from a fresh database. -/
def runOps (ops : List Op) : Store := ops.foldl applyOp emptyStore

/-- The chunk with the given id exists and is completed. -/
def completedIn (s : Store) (i : Nat) : Bool :=
  s.chunks.any (fun c => c.id == i && c.completed)

/-! ### Helper lemmas -/

lemma keyLE_refl (a : Chunk) : keyLE a a = true := by
  simp [keyLE]

lemma keyLE_total (a b : Chunk) : keyLE a b = true ∨ keyLE b a = true := by
  simp only [keyLE, decide_eq_true_eq]
  omega

lemma keyLE_trans {a b c : Chunk} (hab : keyLE a b = true)
    (hbc : keyLE b c = true) : keyLE a c = true := by
  simp only [keyLE, decide_eq_true_eq] at hab hbc ⊢
  omega

lemma minByKey_eq_none_iff (l : List Chunk) : minByKey l = none ↔ l = [] := by
  cases l with
  | nil => simp [minByKey]
  | cons c rest =>
    simp only [minByKey]
    cases h : minByKey rest <;> simp
    split <;> simp

lemma minByKey_mem {l : List Chunk} {c : Chunk} (h : minByKey l = some c) :
    c ∈ l := by
  induction l generalizing c with
  | nil => simp [minByKey] at h
  | cons a rest ih =>
    cases hr : minByKey rest with
    | none =>
      simp only [minByKey, hr] at h
      cases h
      exact List.mem_cons_self a rest
    | some m =>
      simp only [minByKey, hr] at h
      by_cases hk : keyLE a m = true
      · rw [if_pos hk] at h
        cases h
        exact List.mem_cons_self a rest
      · rw [if_neg hk] at h
        cases h
        exact List.mem_cons_of_mem a (ih hr)

lemma minByKey_min {l : List Chunk} {c : Chunk} (h : minByKey l = some c) :
    ∀ x ∈ l, keyLE c x = true := by
  induction l generalizing c with
  | nil => simp [minByKey] at h
  | cons a rest ih =>
    intro x hx
    cases hr : minByKey rest with
    | none =>
      have hre : rest = [] := (minByKey_eq_none_iff rest).1 hr
      subst hre
      simp only [minByKey] at h
      cases h
      simp only [List.mem_singleton] at hx
      subst hx
      exact keyLE_refl _
    | some m =>
      have hmin := ih hr
      simp only [minByKey, hr] at h
      by_cases hk : keyLE a m = true
      · rw [if_pos hk] at h
        cases h
        rcases List.mem_cons.mp hx with rfl | hx'
        · exact keyLE_refl _
        · exact keyLE_trans hk (hmin x hx')
      · rw [if_neg hk] at h
        cases h
        rcases List.mem_cons.mp hx with rfl | hx'
        · rcases keyLE_total x c with h1 | h1
          · exact absurd h1 hk
          · exact h1
        · exact hmin x hx'

lemma dep_mem_iff (s : Store) (i : Nat) (x : Chunk) :
    x ∈ get_chunk_dependencies s i ↔
      x ∈ s.chunks ∧ ∃ d ∈ s.dependencies,
        d.chunk_id = i ∧ d.depends_on_chunk_id = x.id := by
  simp [get_chunk_dependencies, List.mem_filter, List.any_eq_true]

lemma hasIncompleteDep_iff (s : Store) (c : Chunk) :
    hasIncompleteDep s c = true ↔
      ∃ x ∈ get_chunk_dependencies s c.id, x.completed = false := by
  simp only [hasIncompleteDep, List.any_eq_true, Bool.and_eq_true, beq_iff_eq]
  constructor
  · rintro ⟨d, hd, hdc, y, hy, hyid, hyc⟩
    exact ⟨y, (dep_mem_iff s c.id y).2 ⟨hy, d, hd, hdc, hyid.symm⟩, hyc⟩
  · rintro ⟨x, hx, hxc⟩
    rcases (dep_mem_iff s c.id x).1 hx with ⟨hxs, d, hd, hdc, hdx⟩
    exact ⟨d, hd, hdc, x, hxs, hdx.symm, hxc⟩

lemma hasIncompleteDep_eq_false_iff (s : Store) (c : Chunk) :
    hasIncompleteDep s c = false ↔
      ∀ x ∈ get_chunk_dependencies s c.id, x.completed = true := by
  rw [← Bool.not_eq_true, hasIncompleteDep_iff]
  simp

lemma isCandidate_iff (s : Store) (c : Chunk) :
    isCandidate s c = true ↔
      c.completed = false ∧ hasIncompleteDep s c = false := by
  simp [isCandidate]

lemma foldl_applyOp_inv (P : Store → Prop)
    (hstep : ∀ s op, P s → P (applyOp s op)) :
    ∀ (ops : List Op) (s : Store), P s → P (ops.foldl applyOp s) := by
  intro ops
  induction ops with
  | nil => intro s h; exact h
  | cons op rest ih => intro s h; exact ih (applyOp s op) (hstep s op h)

lemma create_chunk_cases (s : Store) (n d : String) (diff : Int) (now : Nat) :
    (validDifficulty diff = true ∧
      create_chunk s n d diff now = Except.ok
        ({ s with
            chunks := s.chunks ++
              [{ id := s.nextId, name := n, description := d,
                 difficulty := diff, completed := false,
                 created_at := now, completed_at := none }],
            nextId := s.nextId + 1 }, s.nextId)) ∨
    (validDifficulty diff = false ∧
      create_chunk s n d diff now = Except.error OpError.validationError) := by
  by_cases hv : validDifficulty diff = true
  · exact Or.inl ⟨hv, by simp [create_chunk, hv]⟩
  · exact Or.inr ⟨by simpa using hv, by simp [create_chunk, hv]⟩

lemma incomplete_filter_eq_nil_iff (L : List Chunk) :
    L.filter (fun d => !d.completed) = [] ↔ ∀ d ∈ L, d.completed = true := by
  rw [List.filter_eq_nil_iff]
  simp

/-! ### Concrete stores used by the witnesses -/

/-- Scenario A of the spec: two chunks, the second depending on the first. -/
def sc1 : Store :=
  runOps [Op.create "LearnPandas" "" 2 0, Op.create "BuildML" "" 4 1,
    Op.addDep 2 1]

/-- The first scenario-A chunk as it sits in the store. -/
def chunkA : Chunk :=
  { id := 1, name := "LearnPandas", description := "", difficulty := 2,
    completed := false, created_at := 0, completed_at := none }

/-! ### Claims -/

/-- Claim C1: get_next_available_chunk never returns a completed chunk or
one with an incomplete direct dependency; it returns a candidate whose
(difficulty, created_at) key is minimal among all candidates (incomplete
chunks whose direct dependencies are all completed), and it returns none
exactly when the candidate set is empty. -/
theorem next_available_selection_correct (s : Store) :
    (∀ c, get_next_available_chunk s = some c →
      c ∈ s.chunks ∧ c.completed = false ∧ hasIncompleteDep s c = false ∧
      (∀ x ∈ get_chunk_dependencies s c.id, x.completed = true) ∧
      (∀ x ∈ s.chunks, isCandidate s x = true → keyLE c x = true)) ∧
    (get_next_available_chunk s = none ↔
      ∀ x ∈ s.chunks, isCandidate s x = false) := by
  constructor
  · intro c h
    have hmem : c ∈ s.chunks.filter (fun c => isCandidate s c) := minByKey_mem h
    rw [List.mem_filter] at hmem
    obtain ⟨h1, h2⟩ := hmem
    rcases (isCandidate_iff s c).1 h2 with ⟨hcomp, hdep⟩
    refine ⟨h1, hcomp, hdep, (hasIncompleteDep_eq_false_iff s c).1 hdep, ?_⟩
    intro x hx hcx
    exact minByKey_min h x (List.mem_filter.mpr ⟨hx, hcx⟩)
  · rw [get_next_available_chunk, minByKey_eq_none_iff, List.filter_eq_nil_iff]
    constructor
    · intro h x hx
      simpa using h x hx
    · intro h x hx
      simp [h x hx]

/-- Witness for C1 on the scenario-A store: the selected chunk is the
easier one and satisfies all the selection properties. -/
theorem next_available_selection_correct_witness :
    chunkA ∈ sc1.chunks ∧ chunkA.completed = false ∧
      hasIncompleteDep sc1 chunkA = false ∧
      (∀ x ∈ get_chunk_dependencies sc1 chunkA.id, x.completed = true) ∧
      (∀ x ∈ sc1.chunks, isCandidate sc1 x = true → keyLE chunkA x = true) :=
  (next_available_selection_correct sc1).1 chunkA (by decide)

/-- Store for the gate witness: an incomplete prerequisite blocking a
second chunk. -/
def sc2 : Store :=
  runOps [Op.create "Prereq" "" 1 0, Op.create "Main" "" 3 1, Op.addDep 2 1]

/-- The blocked chunk of `sc2` as it sits in the store. -/
def chunkMain : Chunk :=
  { id := 2, name := "Main", description := "", difficulty := 3,
    completed := false, created_at := 1, completed_at := none }

/-- The incomplete prerequisite of `sc2` as it sits in the store. -/
def chunkPrereq : Chunk :=
  { id := 1, name := "Prereq", description := "", difficulty := 1,
    completed := false, created_at := 0, completed_at := none }

/-- Claim C2: when the completion gate passes, every direct dependency of
the chunk is completed at that moment; when the chunk exists, is not yet
completed, and some direct dependency is incomplete, the gate fails with
exactly the list of incomplete direct dependencies (and any blocked result
carries exactly that non-empty list). -/
theorem gate_soundness (s : Store) (i : Nat) :
    (can_complete s i = GateResult.ok →
      ∀ d ∈ get_chunk_dependencies s i, d.completed = true) ∧
    (∀ l, can_complete s i = GateResult.blocked l →
      l = (get_chunk_dependencies s i).filter (fun d => !d.completed) ∧
      l ≠ []) ∧
    (∀ c, get_chunk_by_id s i = some c → c.completed = false →
      (∃ d ∈ get_chunk_dependencies s i, d.completed = false) →
      can_complete s i =
        GateResult.blocked
          ((get_chunk_dependencies s i).filter (fun d => !d.completed))) := by
  refine ⟨?_, ?_, ?_⟩
  · intro hok
    unfold can_complete at hok
    split at hok
    · cases hok
    · split at hok
      · cases hok
      · split at hok
        · rename_i he
          exact (incomplete_filter_eq_nil_iff _).1 (List.isEmpty_iff.1 he)
        · cases hok
  · intro l hbl
    unfold can_complete at hbl
    split at hbl
    · cases hbl
    · split at hbl
      · cases hbl
      · split at hbl
        · cases hbl
        · rename_i hne
          cases hbl
          exact ⟨rfl, fun hnil => hne (by simp [List.isEmpty_iff, hnil])⟩
  · intro c hg hc hex
    have hne :
        ((get_chunk_dependencies s i).filter
          (fun d => !d.completed)).isEmpty = false := by
      rcases hex with ⟨d, hd, hdc⟩
      have hmem : d ∈ (get_chunk_dependencies s i).filter
          (fun d => !d.completed) :=
        List.mem_filter.mpr ⟨hd, by simp [hdc]⟩
      exact List.isEmpty_eq_false.2 (List.ne_nil_of_mem hmem)
    simp [can_complete, hg, hc, hne]

/-- Witness for C2: in `sc2` the gate for the dependent chunk is blocked
with exactly the incomplete prerequisite list. -/
theorem gate_soundness_witness :
    can_complete sc2 2 =
      GateResult.blocked
        ((get_chunk_dependencies sc2 2).filter (fun d => !d.completed)) :=
  (gate_soundness sc2 2).2.2 chunkMain (by decide) (by decide)
    ⟨chunkPrereq, by decide, by decide⟩

lemma difficulty_inv_step (s : Store) (op : Op)
    (h : ∀ c ∈ s.chunks, 1 ≤ c.difficulty ∧ c.difficulty ≤ 5) :
    ∀ c ∈ (applyOp s op).chunks, 1 ≤ c.difficulty ∧ c.difficulty ≤ 5 := by
  intro c hc
  cases op with
  | create n d diff now =>
    rcases create_chunk_cases s n d diff now with ⟨hv, heq⟩ | ⟨hv, heq⟩
    · simp only [applyOp, heq] at hc
      rcases List.mem_append.mp hc with hcl | hcr
      · exact h c hcl
      · simp only [List.mem_singleton] at hcr
        subst hcr
        simpa [validDifficulty] using hv
    · simp only [applyOp, heq] at hc
      exact h c hc
  | complete i now =>
    simp only [applyOp, complete_chunk] at hc
    rcases List.mem_map.mp hc with ⟨c₀, hc₀, rfl⟩
    have h₀ := h c₀ hc₀
    split <;> exact h₀
  | addDep a b =>
    simp only [applyOp, add_dependency] at hc
    by_cases he : hasEdge s a b = true
    · simp only [he, if_true] at hc
      exact h c hc
    · simp only [he, if_false] at hc
      exact h c hc

/-- Claim C3: create_chunk with a difficulty outside [1,5] fails with the
validation error (the CHECK constraint rejects the INSERT) and persists
nothing; consequently in every state reachable from a fresh database every
chunk has difficulty in [1,5]. -/
theorem difficulty_always_valid :
    (∀ (s : Store) (n d : String) (diff : Int) (now : Nat),
      ¬(1 ≤ diff ∧ diff ≤ 5) →
      create_chunk s n d diff now = Except.error OpError.validationError ∧
      applyOp s (Op.create n d diff now) = s) ∧
    (∀ ops : List Op, ∀ c ∈ (runOps ops).chunks,
      1 ≤ c.difficulty ∧ c.difficulty ≤ 5) := by
  constructor
  · intro s n d diff now hbad
    have hv : validDifficulty diff = false := by
      simpa [validDifficulty] using hbad
    exact ⟨by simp [create_chunk, hv], by simp [applyOp, create_chunk, hv]⟩
  · intro ops
    exact foldl_applyOp_inv
      (fun s => ∀ c ∈ s.chunks, 1 ≤ c.difficulty ∧ c.difficulty ≤ 5)
      difficulty_inv_step ops emptyStore (by simp [emptyStore])

/-- Witness for C3: difficulty 0 is rejected on a fresh database and the
store is unchanged. -/
theorem difficulty_always_valid_witness :
    create_chunk emptyStore "X" "" 0 0 =
      Except.error OpError.validationError ∧
    applyOp emptyStore (Op.create "X" "" 0 0) = emptyStore :=
  difficulty_always_valid.1 emptyStore "X" "" 0 0 (by decide)

/-- Store reachable from a fresh database in which chunk 1 carries a
dependency edge whose target id 99 matches no chunk row. -/
def sc4 : Store := runOps [Op.create "a" "" 1 0, Op.addDep 1 99]

/-- The chunk holding the dangling dependency edge, as it sits in sc4. -/
def chunkDangling : Chunk :=
  { id := 1, name := "a", description := "", difficulty := 1,
    completed := false, created_at := 0, completed_at := none }

/-- Counterexample to C4: the SQL of both queries JOINs dependency edges
against the chunks table, so an edge whose depends_on_chunk_id matches no
chunk is ignored: in the reachable store sc4, chunk 1 has only a dangling
dependency edge (target 99 does not exist), yet get_next_available_chunk
returns chunk 1 and the completion gate passes for it. -/
theorem dangling_edge_does_not_block_counterexample :
    { chunk_id := 1, depends_on_chunk_id := 99 : Dependency } ∈
      sc4.dependencies ∧
    (∀ c ∈ sc4.chunks, c.id ≠ 99) ∧
    get_next_available_chunk sc4 = some chunkDangling ∧
    chunkDangling.id = 1 ∧
    can_complete sc4 1 = GateResult.ok := by decide

/-- Claim C4 (amended): a chunk with a self-loop dependency edge can never
become available: get_next_available_chunk never returns it, and while it
is incomplete the completion gate never passes for its id.  A dangling
dependency edge, by contrast, does not block at all: both queries ignore
it (see the counterexample). -/
theorem selfloop_blocks_forever (s : Store) (c : Chunk) (hc : c ∈ s.chunks)
    (hloop : { chunk_id := c.id, depends_on_chunk_id := c.id : Dependency } ∈
      s.dependencies) :
    get_next_available_chunk s ≠ some c ∧
    (c.completed = false → can_complete s c.id ≠ GateResult.ok) := by
  have hcdep : c ∈ get_chunk_dependencies s c.id :=
    (dep_mem_iff s c.id c).2
      ⟨hc, { chunk_id := c.id, depends_on_chunk_id := c.id }, hloop, rfl, rfl⟩
  have hblocked : c.completed = false → hasIncompleteDep s c = true := by
    intro hic
    rw [hasIncompleteDep_iff]
    exact ⟨c, hcdep, hic⟩
  constructor
  · intro h
    have hmem : c ∈ s.chunks.filter (fun x => isCandidate s x) :=
      minByKey_mem h
    rw [List.mem_filter] at hmem
    rcases (isCandidate_iff s c).1 hmem.2 with ⟨hcomp, hdep⟩
    rw [hblocked hcomp] at hdep
    cases hdep
  · intro hic hok
    unfold can_complete at hok
    split at hok
    · cases hok
    · split at hok
      · cases hok
      · split at hok
        · rename_i he
          have hmem : c ∈ (get_chunk_dependencies s c.id).filter
              (fun d => !d.completed) :=
            List.mem_filter.mpr ⟨hcdep, by simp [hic]⟩
          rw [List.isEmpty_iff.1 he] at hmem
          cases hmem
        · cases hok

/-- Store reachable from a fresh database in which chunk 1 depends on
itself. -/
def sc4b : Store := runOps [Op.create "b" "" 1 0, Op.addDep 1 1]

/-- The self-looping chunk as it sits in sc4b. -/
def chunkSelf : Chunk :=
  { id := 1, name := "b", description := "", difficulty := 1,
    completed := false, created_at := 0, completed_at := none }

/-- Witness for the amended C4 on the concrete self-loop store. -/
theorem selfloop_blocks_forever_witness :
    get_next_available_chunk sc4b ≠ some chunkSelf ∧
    (chunkSelf.completed = false →
      can_complete sc4b chunkSelf.id ≠ GateResult.ok) :=
  selfloop_blocks_forever sc4b chunkSelf (by decide) (by decide)

/-- Claim C5: whatever the first call did, a second add_dependency call
with the same ordered pair returns false and leaves the store (hence the
dependency set) unchanged. -/
theorem add_dependency_duplicate (s : Store) (a b : Nat) :
    add_dependency (add_dependency s a b).1 a b =
      ((add_dependency s a b).1, false) := by
  by_cases he : hasEdge s a b = true
  · simp [add_dependency, he]
  · have hfalse : hasEdge s a b = false := by simpa using he
    have he2 : hasEdge
        { s with dependencies := s.dependencies ++
            [{ chunk_id := a, depends_on_chunk_id := b }] } a b = true := by
      simp [hasEdge, List.any_append]
    simp [add_dependency, hfalse, he2]

/-- Witness for C5 at a concrete pair on the fresh store. -/
theorem add_dependency_duplicate_witness :
    add_dependency (add_dependency emptyStore 1 2).1 1 2 =
      ((add_dependency emptyStore 1 2).1, false) :=
  add_dependency_duplicate emptyStore 1 2

lemma completedIn_step (s : Store) (op : Op) (i : Nat)
    (h : completedIn s i = true) : completedIn (applyOp s op) i = true := by
  rcases List.any_eq_true.mp h with ⟨c, hc, hcp⟩
  rw [Bool.and_eq_true, beq_iff_eq] at hcp
  cases op with
  | create n d diff now =>
    rcases create_chunk_cases s n d diff now with ⟨hv, heq⟩ | ⟨hv, heq⟩
    · simp only [completedIn, applyOp, heq]
      exact List.any_eq_true.mpr
        ⟨c, List.mem_append_left _ hc, by simp [hcp.1, hcp.2]⟩
    · simp only [applyOp, heq]
      exact h
  | complete j now =>
    simp only [completedIn, applyOp, complete_chunk]
    apply List.any_eq_true.mpr
    refine ⟨(fun c => if c.id == j then
        { c with completed := true, completed_at := some now }
      else c) c, List.mem_map_of_mem _ hc, ?_⟩
    by_cases hj : (c.id == j) = true
    · simp only [hj, if_true]
      simp [hcp.1]
    · simp only [hj, if_false]
      simp [hcp.1, hcp.2]
  | addDep a b =>
    simp only [completedIn, applyOp, add_dependency]
    split
    · exact h
    · exact h

/-- Claim C6: once a chunk is completed, no sequence of the exposed
mutating operations ever makes it incomplete again (the queries are pure
functions of the store and mutate nothing, as their types show). -/
theorem completed_is_terminal (s : Store) (i : Nat)
    (h : completedIn s i = true) :
    ∀ ops : List Op, completedIn (ops.foldl applyOp s) i = true := by
  intro ops
  exact foldl_applyOp_inv (fun t => completedIn t i = true)
    (fun t op ht => completedIn_step t op i ht) ops s h

/-- Store with chunk 1 created and then completed. -/
def sc6 : Store := runOps [Op.create "a" "" 1 0, Op.complete 1 1]

/-- Witness for C6: chunk 1 of sc6 stays completed across further
operations. -/
theorem completed_is_terminal_witness :
    completedIn
      (([Op.addDep 1 2, Op.create "b" "" 2 3, Op.complete 9 4].foldl
        applyOp) sc6) 1 = true :=
  completed_is_terminal sc6 1 (by decide)
    [Op.addDep 1 2, Op.create "b" "" 2 3, Op.complete 9 4]

lemma completed_at_inv_step (s : Store) (op : Op)
    (h : ∀ c ∈ s.chunks, c.completed_at.isSome = c.completed) :
    ∀ c ∈ (applyOp s op).chunks, c.completed_at.isSome = c.completed := by
  intro c hc
  cases op with
  | create n d diff now =>
    rcases create_chunk_cases s n d diff now with ⟨hv, heq⟩ | ⟨hv, heq⟩
    · simp only [applyOp, heq] at hc
      rcases List.mem_append.mp hc with hcl | hcr
      · exact h c hcl
      · simp only [List.mem_singleton] at hcr
        subst hcr
        rfl
    · simp only [applyOp, heq] at hc
      exact h c hc
  | complete j now =>
    simp only [applyOp, complete_chunk] at hc
    rcases List.mem_map.mp hc with ⟨c₀, hc₀, rfl⟩
    by_cases hj : (c₀.id == j) = true
    · simp [hj]
    · simp only [hj, if_false]
      exact h c₀ hc₀
  | addDep a b =>
    simp only [applyOp, add_dependency] at hc
    by_cases he : hasEdge s a b = true
    · simp only [he, if_true] at hc
      exact h c hc
    · simp only [he, if_false] at hc
      exact h c hc

/-- Claim C7: in every reachable state completed_at is set exactly when
completed is true; creation establishes completed = false with
completed_at absent, and complete_chunk establishes completed = true with
completed_at set, in the same step. -/
theorem completed_at_iff_completed :
    (∀ ops : List Op, ∀ c ∈ (runOps ops).chunks,
      c.completed_at.isSome = c.completed) ∧
    (∀ (s : Store) (n d : String) (diff : Int) (now : Nat) (s₂ : Store)
      (i : Nat), create_chunk s n d diff now = Except.ok (s₂, i) →
      ∃ c ∈ s₂.chunks, c.id = i ∧ c.completed = false ∧
        c.completed_at = none) ∧
    (∀ (s : Store) (i now : Nat),
      ∀ c ∈ ((complete_chunk s i now).1).chunks, c.id = i →
        c.completed = true ∧ c.completed_at = some now) := by
  refine ⟨?_, ?_, ?_⟩
  · intro ops
    exact foldl_applyOp_inv
      (fun t => ∀ c ∈ t.chunks, c.completed_at.isSome = c.completed)
      completed_at_inv_step ops emptyStore (by simp [emptyStore])
  · intro s n d diff now s₂ i heq
    rcases create_chunk_cases s n d diff now with ⟨hv, heq2⟩ | ⟨hv, heq2⟩
    · rw [heq2] at heq
      cases heq
      exact ⟨_, List.mem_append_right _ (List.mem_singleton.mpr rfl),
        rfl, rfl, rfl⟩
    · rw [heq2] at heq
      cases heq
  · intro s i now c hc hid
    simp only [complete_chunk] at hc
    rcases List.mem_map.mp hc with ⟨c₀, hc₀, rfl⟩
    by_cases hj : (c₀.id == i) = true
    · simp [hj]
    · simp [hj] at hid
      exact absurd (by simp [hid]) hj

/-- Store with a single incomplete chunk 1. -/
def sc7 : Store := runOps [Op.create "a" "" 1 0]

/-- Chunk 1 of sc7 after complete_chunk at time 5. -/
def chunkDone : Chunk :=
  { id := 1, name := "a", description := "", difficulty := 1,
    completed := true, created_at := 0, completed_at := some 5 }

/-- Witness for C7: completing chunk 1 of sc7 at time 5 sets both fields
together. -/
theorem completed_at_iff_completed_witness :
    chunkDone.completed = true ∧ chunkDone.completed_at = some 5 :=
  completed_at_iff_completed.2.2 sc7 1 5 chunkDone (by decide) (by decide)

/-- Claim C8: add_dependency validates nothing but duplication: for any
pair that is not already an edge — the ids need not match any chunk, since
foreign keys are never enabled on the connection — it appends the edge and
returns true. -/
theorem add_dependency_no_validation (s : Store) (a b : Nat)
    (h : hasEdge s a b = false) :
    add_dependency s a b =
      ({ s with dependencies := s.dependencies ++
          [{ chunk_id := a, depends_on_chunk_id := b }] },
       true) := by
  simp [add_dependency, h]

/-- Witness for C8: on the fresh store, whose chunks table is empty, the
pair (7, 8) refers to no existing chunk yet is inserted with result
true. -/
theorem add_dependency_no_validation_witness :
    add_dependency emptyStore 7 8 =
      ({ emptyStore with dependencies := emptyStore.dependencies ++
          [{ chunk_id := 7, depends_on_chunk_id := 8 }] },
       true) :=
  add_dependency_no_validation emptyStore 7 8 (by decide)

/-- Counterexample to C9: create_chunk with an empty name does not fail —
neither the Python body nor the schema rejects an empty (non-NULL) name —
and it persists a chunk whose name is empty. -/
theorem empty_name_accepted_counterexample :
    create_chunk emptyStore "" "d" 3 0 =
      Except.ok
        ({ chunks := [{ id := 1, name := "", description := "d",
                        difficulty := 3, completed := false,
                        created_at := 0, completed_at := none }],
           dependencies := [], nextId := 2 }, 1) ∧
    ∃ c ∈ (applyOp emptyStore (Op.create "" "d" 3 0)).chunks,
      c.name = "" := by
  refine ⟨rfl, ?_⟩
  exact ⟨{ id := 1, name := "", description := "d", difficulty := 3,
           completed := false, created_at := 0, completed_at := none },
    by decide, rfl⟩

/-- Claim C9 (amended): create_chunk performs no validation of name: with
any in-range difficulty it succeeds even when the name is empty and
persists a chunk whose name is empty, so persisted chunks may have empty
names. -/
theorem create_chunk_no_name_validation (s : Store) (d : String)
    (diff : Int) (now : Nat) (h : 1 ≤ diff ∧ diff ≤ 5) :
    ∃ s₂, create_chunk s "" d diff now = Except.ok (s₂, s.nextId) ∧
      ∃ c ∈ s₂.chunks, c.id = s.nextId ∧ c.name = "" := by
  have hv : validDifficulty diff = true := by
    simpa [validDifficulty] using h
  refine ⟨{ s with
      chunks := s.chunks ++
        [{ id := s.nextId, name := "", description := d,
           difficulty := diff, completed := false, created_at := now,
           completed_at := none }],
      nextId := s.nextId + 1 }, ?_, ?_⟩
  · simp [create_chunk, hv]
  · exact ⟨_, List.mem_append_right _ (List.mem_singleton.mpr rfl),
      rfl, rfl⟩

/-- Witness for the amended C9 on the fresh store. -/
theorem create_chunk_no_name_validation_witness :
    ∃ s₂, create_chunk emptyStore "" "d" 2 0 =
        Except.ok (s₂, emptyStore.nextId) ∧
      ∃ c ∈ s₂.chunks, c.id = emptyStore.nextId ∧ c.name = "" :=
  create_chunk_no_name_validation emptyStore "d" 2 0 (by decide)

/-- Claim C10: complete_chunk's boolean depends only on whether a row with
the id exists, not on its prior completion state; called on an
already-completed chunk it returns true again and overwrites completed_at
with the new call's timestamp. -/
theorem complete_chunk_recomplete (s : Store) (i now : Nat) :
    ((complete_chunk s i now).2 = s.chunks.any (fun c => c.id == i)) ∧
    (∀ c ∈ s.chunks, c.id = i → c.completed = true →
      (complete_chunk s i now).2 = true ∧
      ∃ c₂ ∈ ((complete_chunk s i now).1).chunks,
        c₂.id = i ∧ c₂.completed = true ∧ c₂.completed_at = some now) := by
  refine ⟨rfl, ?_⟩
  intro c hc hid _
  refine ⟨List.any_eq_true.mpr ⟨c, hc, by simp [hid]⟩, ?_⟩
  simp only [complete_chunk]
  refine ⟨_, List.mem_map_of_mem _ hc, ?_⟩
  simp [hid]

/-- Store with chunk 1 already completed at time 3. -/
def sc10 : Store := runOps [Op.create "a" "" 1 0, Op.complete 1 3]

/-- Chunk 1 of sc10: already completed, completed_at = 3. -/
def chunkOld : Chunk :=
  { id := 1, name := "a", description := "", difficulty := 1,
    completed := true, created_at := 0, completed_at := some 3 }

/-- Witness for C10: re-completing chunk 1 of sc10 at time 9 returns true
and replaces the recorded completion time 3 by 9. -/
theorem complete_chunk_recomplete_witness :
    (complete_chunk sc10 1 9).2 = true ∧
    ∃ c₂ ∈ ((complete_chunk sc10 1 9).1).chunks,
      c₂.id = 1 ∧ c₂.completed = true ∧ c₂.completed_at = some 9 :=
  (complete_chunk_recomplete sc10 1 9).2 chunkOld (by decide) (by decide)
    (by decide)
